import Mathlib

/-!
Verification development for the `aql-cleaner` repository.

The repository is a collection of near-duplicate serverless handlers that
extract text from a document tree, normalize and classify lines into a fixed
section taxonomy, reassemble the sections in a locked table-of-contents
order, and split the result into size-bounded chunks and request-bounded
batches.  This file gives a shallow embedding, in Lean, of the functions the
claims are about:

* `stripCruft`           — the line normalizer (src/unnamed/part_000, lines 89-98)
* `identifySection`      — the single-pass classifier (part_000, lines 100-151)
* `compileMarkdownLines` — the document reassembler (part_000, lines 153-179)
* `toJSONSections`       — the JSON reassembler (part_000, lines 181-198)
* `splitTextIntoChunks`  — the multi-level chunker (src/api/clean-company.js, 702-770)
* `chunkText`            — the naive newline-preferring chunker (part_003, 142-153)
* `chunkArray` / `notionBatches` — the 100-block batching (clean-company.js 1464-1468,
  1590-1609, and 370-395)

Lines and texts are embedded as `List Char`; JavaScript strings support the
same indexed-character view.  Regexes are embedded as executable matchers that
follow the source pattern text; each matcher is commented with the regex it
implements.
-/

namespace AqlCleaner

/-! ## Character classes (JavaScript semantics) -/

/-- JavaScript `\s`: whitespace, including the usual ASCII whitespace,
NBSP, and the Unicode space separators recognized by JS regexes. -/
def jsWs (c : Char) : Bool :=
  c = ' ' || c = '\t' || c = '\n' || c = '\x0b' || c = '\x0c' || c = '\r' ||
  c = ' ' || c = ' ' || (' ' ≤ c && c ≤ ' ') ||
  c = ' ' || c = ' ' || c = ' ' || c = ' ' || c = '　' ||
  c = '﻿'

/-- JavaScript `\d`. -/
def jsDigit (c : Char) : Bool := '0' ≤ c && c ≤ '9'

/-- JavaScript word character (for `\b` boundaries): `[A-Za-z0-9_]`. -/
def isWordChar (c : Char) : Bool :=
  ('a' ≤ c && c ≤ 'z') || ('A' ≤ c && c ≤ 'Z') || jsDigit c || c = '_'

/-- Characters that JavaScript `.` does NOT match (line terminators). -/
def isNewlineCh (c : Char) : Bool :=
  c = '\n' || c = '\r' || c = ' ' || c = ' '

/-- Case-insensitive character comparison (the `i` regex flag). -/
def ciIs (x c : Char) : Bool := x.toLower = c.toLower

/-- `String.trim` of JavaScript: drop whitespace from both ends. -/
def jsTrim (s : List Char) : List Char :=
  ((s.dropWhile jsWs).reverse.dropWhile jsWs).reverse

/-- Abbreviation turning a Lean string literal into the `List Char` embedding. -/
def cs (s : String) : List Char := s.data

/-! ## stripCruft stage 1: banner removal

`.replace(/^=+\s*.*?=+\s*$/g, '')` — anchored at both ends, so the whole
line is erased exactly when it matches.  `\s` matches line terminators but
`.` does not, so the whitespace segments may span newlines while the middle
segment may not. -/

/-- Does the line match `^=+\s*.*?=+\s*$`?

Writing a match as `A(=+) B(\s*) C(.*?) D(=+) E(\s*)`:
* `E` is forced to be the maximal trailing whitespace run, because the
  character right before `E` is `D`'s final `=` (not whitespace); so the
  line with trailing whitespace stripped must end in `=`.
* `D` may be taken of length 1: further `=` characters fit in `C` (`=` is
  not a line terminator).
* `A` is best taken as the whole leading `=`-run and `B` as the whole
  whitespace run that follows it: a shorter `A` forces `B` empty (the next
  character is `=`, not whitespace) and a shorter `B` only grows `C`, and
  `C` — unlike `B` — cannot contain line terminators.
So a match exists iff the line starts with `=`, after stripping trailing
whitespace it still ends with `=` with at least one character before that
final `=`, and dropping the leading `=`-run and then the following
whitespace run from that remainder leaves no line terminator. -/
def isBanner (s : List Char) : Bool :=
  match s with
  | [] => false
  | c :: _ =>
    c = '=' &&
      (let e := (s.reverse.dropWhile jsWs).reverse
       match e.getLast? with
       | some d =>
         d = '=' &&
           (let core := e.dropLast
            !core.isEmpty &&
              (((core.dropWhile fun x => x = '=').dropWhile jsWs).all
                fun x => !isNewlineCh x))
       | none => false)

/-- Stage 1 of `stripCruft`: erase the whole line when it is a banner. -/
def bannerStage (s : List Char) : List Char := if isBanner s then [] else s

/-! ## stripCruft stage 2: `.replace(/\bStep\s*\d+\b/gi, '')` -/

/-- Try to match `Step\s*\d+\b` at the head of `s` (the leading `\b` is
checked by the caller).  Returns the number of characters consumed. -/
def matchStepAt (s : List Char) : Option Nat :=
  match s with
  | c1 :: c2 :: c3 :: c4 :: rest =>
    if ciIs c1 's' && ciIs c2 't' && ciIs c3 'e' && ciIs c4 'p' then
      let w := rest.takeWhile jsWs
      let r1 := rest.dropWhile jsWs
      let d := r1.takeWhile jsDigit
      let r2 := r1.dropWhile jsDigit
      if d.isEmpty then none
      else if (match r2.head? with
               | none => true
               | some x => !isWordChar x) then
        some (4 + w.length + d.length)
      else none
    else none
  | _ => none

/-- Scanner for the global replacement of `\bStep\s*\d+\b` by the empty
string.  `prevWord` records whether the previous character of the original
string is a word character (for the leading `\b`).  A successful match
consumes `n ≥ 4` characters of `c :: rest`, i.e. `n - 1` characters of
`rest`, so scanning resumes at `rest.drop (n - 1)`; the last matched
character is a digit, hence a word character, so `prevWord` becomes true.
The `fuel` argument only makes the recursion structural (each step shortens
the list, so any fuel above the list length is enough); it is initialized to
`s.length + 1` and never reaches the (unreachable) zero case. -/
def removeStepsGo : Nat → Bool → List Char → List Char
  | 0, _, s => s
  | _ + 1, _, [] => []
  | fuel + 1, prevWord, c :: rest =>
    match (if prevWord then none else matchStepAt (c :: rest)) with
    | some n => removeStepsGo fuel true (rest.drop (n - 1))
    | none => c :: removeStepsGo fuel (isWordChar c) rest

/-- Stage 2 of `stripCruft`. -/
def removeSteps (s : List Char) : List Char := removeStepsGo (s.length + 1) false s

/-! ## stripCruft stage 3: `.replace(/\((?:\d+\s*-\s*)?\d+\s*words?\)/gi, '')` -/

/-- Finish matching `\s*words?\)` after the digits; `consumed` counts the
characters matched so far and the result adds the rest of the match. -/
def finishWc (consumed : Nat) (r : List Char) : Option Nat :=
  let w := r.takeWhile jsWs
  let r1 := r.dropWhile jsWs
  match r1 with
  | cw :: co :: cr :: cd :: rest =>
    if ciIs cw 'w' && ciIs co 'o' && ciIs cr 'r' && ciIs cd 'd' then
      match rest with
      | [] => none
      | [e1] => if e1 = ')' then some (consumed + w.length + 5) else none
      | e1 :: e2 :: _ =>
        if ciIs e1 's' && e2 = ')' then some (consumed + w.length + 6)
        else if e1 = ')' then some (consumed + w.length + 5)
        else none
    else none
  | _ => none

/-- Try to match `\((?:\d+\s*-\s*)?\d+\s*words?\)` at the head of `s`;
returns the number of characters consumed.  When a dash follows the first
digit run the optional group is taken (and a second digit run is required);
otherwise the first digit run serves as the mandatory `\d+`. -/
def matchWcAt (s : List Char) : Option Nat :=
  match s with
  | '(' :: r =>
    let d1 := r.takeWhile jsDigit
    let r1 := r.dropWhile jsDigit
    if d1.isEmpty then none
    else
      let w1 := r1.takeWhile jsWs
      match r1.dropWhile jsWs with
      | '-' :: rr =>
        let w2 := rr.takeWhile jsWs
        let r2 := rr.dropWhile jsWs
        let d2 := r2.takeWhile jsDigit
        let r3 := r2.dropWhile jsDigit
        if d2.isEmpty then none
        else finishWc (1 + d1.length + w1.length + 1 + w2.length + d2.length) r3
      | _ => finishWc (1 + d1.length) r1
  | _ => none

/-- Scanner for the global replacement of the word-count annotation.  A
successful match consumes `n ≥ 1` characters (it starts with the opening
parenthesis `c`), so scanning resumes at `rest.drop (n - 1)`.  As in
`removeStepsGo`, `fuel` only makes the recursion structural. -/
def removeWcGoFuel : Nat → List Char → List Char
  | 0, s => s
  | _ + 1, [] => []
  | fuel + 1, c :: rest =>
    match matchWcAt (c :: rest) with
    | some n => removeWcGoFuel fuel (rest.drop (n - 1))
    | none => c :: removeWcGoFuel fuel rest

/-- Stage 3 of `stripCruft`. -/
def removeWcGo (s : List Char) : List Char := removeWcGoFuel (s.length + 1) s

/-! ## stripCruft stages 4-7 -/

/-- Stage 4: `.replace(/ /g, ' ')`. -/
def nbspStage (s : List Char) : List Char :=
  s.map fun c => if c = ' ' then ' ' else c

/-- Parse `Section\s*\d+\s*:?\s*` at the head of `s`; returns the remainder
after the match. -/
def parseSectionTail (s : List Char) : Option (List Char) :=
  match s with
  | c1 :: c2 :: c3 :: c4 :: c5 :: c6 :: c7 :: rest =>
    if ciIs c1 's' && ciIs c2 'e' && ciIs c3 'c' && ciIs c4 't' &&
       ciIs c5 'i' && ciIs c6 'o' && ciIs c7 'n' then
      let r1 := rest.dropWhile jsWs
      let d := r1.takeWhile jsDigit
      let r2 := r1.dropWhile jsDigit
      if d.isEmpty then none
      else
        let r3 := r2.dropWhile jsWs
        match r3 with
        | ':' :: r4 => some (r4.dropWhile jsWs)
        | _ => some r3
    else none
  | _ => none

/-- Stage 6: `.replace(/^###\s*Section\s*\d+\s*:?\s*/i, '')`. -/
def hashSectionStage (s : List Char) : List Char :=
  match s with
  | '#' :: '#' :: '#' :: r =>
    match parseSectionTail (r.dropWhile jsWs) with
    | some t => t
    | none => s
  | _ => s

/-- Stage 7: `.replace(/^Section\s*\d+\s*:?\s*/i, '')`. -/
def sectionStage (s : List Char) : List Char :=
  match parseSectionTail s with
  | some t => t
  | none => s

/-- The line normalizer (`stripCruft` in part_000 lines 89-98 and part_003
lines 78-87): banner removal, `Step N` removal, word-count removal, NBSP
normalization, trim, then the two section-number prefixes. -/
def stripCruft (line : List Char) : List Char :=
  sectionStage (hashSectionStage (jsTrim (nbspStage (removeWcGo (removeSteps (bannerStage line))))))

example : stripCruft (cs "  Hello world  ") = cs "Hello world" := by decide
example : stripCruft (cs "=== TITLE ===") = [] := by decide
example : stripCruft (cs "### Section 3: The Problem") = cs "The Problem" := by decide
example : stripCruft (cs "Step 2 do this (75-150 words)") = cs "do this" := by decide
example : stripCruft (cs " == ") = cs "==" := by decide
example : stripCruft (cs "==") = [] := by decide

-- Banners whose leading `=`-run is followed by whitespace containing a line
-- terminator: `^=+` takes the whole run and `\s*` absorbs the newline.
example : isBanner (cs "==\n==") = true := by decide
example : stripCruft (cs "==\n==") = [] := by decide
example : isBanner (cs "=\n=") = true := by decide
example : stripCruft (cs "==\nData Gravity ==") = [] := by decide
-- A newline that only `.` would have to match is not a banner.
example : isBanner (cs "=x\n=") = false := by decide
example : isBanner (cs "==x\n==") = false := by decide
example : isBanner (cs "== =\n==") = false := by decide
-- `=+` is needed on both sides of the match.
example : isBanner (cs "=") = false := by decide
example : isBanner (cs "= ") = false := by decide
example : isBanner (cs "===") = true := by decide
-- The section-prefix strips run after banner removal, so a second pass can
-- still uncover a banner: stripCruft is applied once per call.
example : stripCruft (cs "Section 1: ==\n==") = cs "==\n==" := by decide

/-! ## Section classifier (identifySection, part_000 lines 100-151)

The rule patterns are substring tests (`rx.test(line)`) of alternations of
literal words separated by `\s*` (plus one `[_\s-]*`, one `s?` and literal
spaces/slashes).  They are embedded as lists of alternatives, each
alternative a sequence of atoms; matching is maximal-munch, which coincides
with the backtracking regex semantics here because every starred class is
always followed by a literal outside that class. -/

/-- One atom of a rule pattern. -/
inductive RAtom where
  | lit (c : Char)
  | wsStar
  | clsStar (p : Char → Bool)
  | optCh (c : Char)

/-- Match a sequence of atoms at the head of `s` (the suffix may be
arbitrary, as `test` is unanchored). -/
def matchAtoms : List RAtom → List Char → Bool
  | [], _ => true
  | RAtom.lit _ :: _, [] => false
  | RAtom.lit c :: as, x :: xs => ciIs x c && matchAtoms as xs
  | RAtom.wsStar :: as, s => matchAtoms as (s.dropWhile jsWs)
  | RAtom.clsStar p :: as, s => matchAtoms as (s.dropWhile p)
  | RAtom.optCh _ :: as, [] => matchAtoms as []
  | RAtom.optCh c :: as, x :: xs =>
    if ciIs x c then matchAtoms as xs else matchAtoms as (x :: xs)

/-- `rx.test(line)`: try the alternatives at every start position. -/
def testFrom (alts : List (List RAtom)) : List Char → Bool
  | [] => alts.any fun a => matchAtoms a []
  | c :: xs => (alts.any fun a => matchAtoms a (c :: xs)) || testFrom alts xs

/-- Literal (case-insensitive) word as an atom sequence. -/
def litA (s : String) : List RAtom := s.data.map RAtom.lit

/-- `[_\s-]`, the class in `company[_\s-]*snap`. -/
def underWsDash (c : Char) : Bool := c = '_' || jsWs c || c = '-'

/-- `Company Overview:${t}` (part_000 line 38). -/
def keyCompany (t : String) : String := "Company Overview:" ++ t

/-- `Part 2: Control Points Analysis:${t}` (part_000 line 39). -/
def keyControl (t : String) : String := "Part 2: Control Points Analysis:" ++ t

/-- The ordered rule table `RX` (part_000 lines 108-130): each entry is the
embedded pattern alternatives paired with the target section key. -/
def RX : List (List (List RAtom) × String) :=
  [ ([litA "company" ++ [RAtom.wsStar] ++ litA "snapshot",
      litA "company" ++ [RAtom.clsStar underWsDash] ++ litA "snap"],
     keyCompany "1. Company Snapshot"),
    ([litA "business" ++ [RAtom.wsStar] ++ litA "summary",
      litA "executive" ++ [RAtom.wsStar] ++ litA "summary"],
     keyCompany "2. Business Summary"),
    ([litA "product" ++ [RAtom.wsStar] ++ litA "overview",
      litA "key" ++ [RAtom.wsStar] ++ litA "modules",
      litA "value" ++ [RAtom.wsStar] ++ litA "proposition"],
     keyCompany "3. Product Overview"),
    ([litA "vertical" ++ [RAtom.wsStar] ++ litA "specific"],
     keyCompany "4. Vertical Specificity"),
    ([litA "customer" ++ [RAtom.wsStar] ++ litA "overview"],
     keyCompany "5. Customer Overview"),
    ([litA "ICP", litA "ideal customer profile", litA "segmentation",
      litA "personas"],
     keyCompany "6. ICP Analysis"),
    ([litA "job" ++ [RAtom.optCh 's', RAtom.wsStar] ++ litA "to" ++
        [RAtom.wsStar] ++ litA "be" ++ [RAtom.wsStar] ++ litA "done",
      litA "JTBD"],
     keyCompany "7. Customer Jobs to Be Done"),
    ([litA "customer" ++ [RAtom.wsStar] ++ litA "success",
      litA "case" ++ [RAtom.wsStar] ++ litA "studies"],
     keyCompany "8. Customer Success Stories"),
    ([litA "market" ++ [RAtom.wsStar] ++ litA "overview",
      litA "market" ++ [RAtom.wsStar] ++ litA "context"],
     keyCompany "9. Market Overview"),
    ([litA "TAM" ++ [RAtom.wsStar, RAtom.lit '/', RAtom.wsStar] ++ litA "SAM" ++
        [RAtom.wsStar, RAtom.lit '/', RAtom.wsStar] ++ litA "SOM",
      litA "market sizing",
      litA "TAM/SAM/SOM"],
     keyCompany "10. TAM / SAM / SOM"),
    ([litA "competitive" ++ [RAtom.wsStar] ++ litA "analysis",
      litA "competitive" ++ [RAtom.wsStar] ++ litA "landscape",
      litA "positioning"],
     keyCompany "11. Competitive Analysis"),
    ([litA "market" ++ [RAtom.wsStar] ++ litA "map"],
     keyCompany "12. Competitive Market Map"),
    ([litA "data" ++ [RAtom.wsStar] ++ litA "gravity"],
     keyControl "1. Data Gravity Analysis"),
    ([litA "workflow" ++ [RAtom.wsStar] ++ litA "gravity"],
     keyControl "2. Workflow Gravity Analysis"),
    ([litA "account" ++ [RAtom.wsStar] ++ litA "gravity"],
     keyControl "3. Account Gravity Analysis"),
    ([litA "network" ++ [RAtom.wsStar] ++ litA "effects"],
     keyControl "4. Network Effects Analysis"),
    ([litA "ecosystem" ++ [RAtom.wsStar] ++ litA "control"],
     keyControl "5. Ecosystem Control Points Analysis"),
    ([litA "product" ++ [RAtom.wsStar] ++ litA "extension"],
     keyControl "6. Product Extension Analysis"),
    ([litA "final" ++ [RAtom.wsStar] ++ litA "control" ++ [RAtom.wsStar] ++
        litA "points" ++ [RAtom.wsStar] ++ litA "conclusions"],
     keyControl "7. Final Control Points Conclusions"),
    ([litA "final" ++ [RAtom.wsStar] ++ litA "total" ++ [RAtom.wsStar] ++
        litA "score",
      litA "classification"],
     keyControl "8. Final Total Score and Classification") ]

/-- `hit` (part_000 lines 133-136): first rule whose pattern matches. -/
def hit (line : List Char) : Option String :=
  (RX.find? fun r => testFrom r.1 line).map fun r => r.2

/-- Buckets: a JavaScript `Map` from section key to collected lines,
embedded as an insertion-ordered association list. -/
abbrev Buckets : Type := List (String × List (List Char))

/-- `buckets.get(k) || []`. -/
def getB (b : Buckets) (k : String) : List (List Char) :=
  match b with
  | [] => []
  | (k', v) :: rest => if k' = k then v else getB rest k

/-- `push` (part_000 lines 102-106): append `txt` to the bucket of `k`,
dropping empty strings. -/
def pushB (b : Buckets) (k : String) (txt : List Char) : Buckets :=
  if txt = [] then b
  else
    match b with
    | [] => [(k, [txt])]
    | (k', v) :: rest =>
      if k' = k then (k', v ++ [txt]) :: rest else (k', v) :: pushB rest k txt

/-- One iteration of the classifier loop (part_000 lines 138-148): normalize
the raw line, skip it if empty, move the cursor on a header match (consuming
the line), otherwise append the line to the current bucket (defaulting to
Business Summary). -/
def classifyLine (st : Option String × Buckets) (raw : List Char) : Option String × Buckets :=
  let line := stripCruft raw
  if line = [] then st
  else
    match hit line with
    | some k => (some k, st.2)
    | none =>
      let cur := st.1.getD (keyCompany "2. Business Summary")
      (some cur, pushB st.2 cur line)

/-- `identifySection` (part_000 lines 100-151). -/
def identifySection (allLines : List (List Char)) : Buckets :=
  (allLines.foldl classifyLine (none, [])).2

/-- Total number of lines stored across all buckets. -/
def totalSize (b : Buckets) : Nat := (b.map fun p => p.2.length).sum

example : hit (cs "Data Gravity") = some (keyControl "1. Data Gravity Analysis") := by decide
example : hit (cs "hello there") = none := by decide
example : identifySection [cs "Data Gravity"] = [] := by decide
example :
    identifySection [cs "intro text", cs "Data Gravity", cs "body line"] =
      [(keyCompany "2. Business Summary", [cs "intro text"]),
       (keyControl "1. Data Gravity Analysis", [cs "body line"])] := by decide

/-! ## Document reassembler (compileMarkdown / toJSON, part_000 lines 153-198) -/

/-- Locked TOC of the primary scope (part_000 lines 12-25). -/
def TOC : List String :=
  ["1. Company Snapshot", "2. Business Summary", "3. Product Overview",
   "4. Vertical Specificity", "5. Customer Overview", "6. ICP Analysis",
   "7. Customer Jobs to Be Done", "8. Customer Success Stories",
   "9. Market Overview", "10. TAM / SAM / SOM", "11. Competitive Analysis",
   "12. Competitive Market Map"]

/-- Locked TOC of the secondary scope (part_000 lines 27-36). -/
def CONTROL_TOC : List String :=
  ["1. Data Gravity Analysis", "2. Workflow Gravity Analysis",
   "3. Account Gravity Analysis", "4. Network Effects Analysis",
   "5. Ecosystem Control Points Analysis", "6. Product Extension Analysis",
   "7. Final Control Points Conclusions",
   "8. Final Total Score and Classification"]

/-- The separator line pushed after every emitted section. -/
def sepLine : List Char := cs "---"

/-- The lines emitted for one scope: for each title in order, if the bucket
is non-empty, a `## title` header, the body lines, and a separator. -/
def scopeLines (b : Buckets) (keyOf : String → String) (titles : List String) :
    List (List Char) :=
  (titles.map fun t =>
    let body := getB b (keyOf t)
    if body.isEmpty then [] else cs ("## " ++ t) :: body ++ [sepLine]).flatten

/-- `compileMarkdown` (part_000 lines 153-179), before the final
`join('\n')`: the pushed lines with trailing separators popped. -/
def mdLines (b : Buckets) : List (List Char) :=
  cs "# Company Overview" :: [] :: scopeLines b keyCompany TOC ++
    cs "# Part 2: Control Points Analysis" :: [] :: scopeLines b keyControl CONTROL_TOC

def compileMarkdownLines (b : Buckets) : List (List Char) :=
  (((mdLines b).reverse.dropWhile fun x => x == sepLine).reverse)

/-- `compileMarkdown`'s result string (`md.join('\n')`). -/
def compileMarkdown (b : Buckets) : List Char :=
  List.intercalate (cs "\n") (compileMarkdownLines b)

/-- One entry of `toJSON(...).sections`. -/
structure CleanSection where
  scope : String
  title : String
  body_md : List Char
  deriving DecidableEq

/-- The `sections` array built by `toJSON` (part_000 lines 181-198): both
scopes in locked order, non-empty buckets only, body joined with newlines.
The surrounding object only adds the company name and a timestamp metadata
field, neither derived from the buckets. -/
def toJSONSections (b : Buckets) : List CleanSection :=
  (TOC.filterMap fun t =>
    let body := getB b (keyCompany t)
    if body.isEmpty then none
    else some ⟨"Company Overview", t, List.intercalate (cs "\n") body⟩) ++
  (CONTROL_TOC.filterMap fun t =>
    let body := getB b (keyControl t)
    if body.isEmpty then none
    else some ⟨"Part 2: Control Points Analysis", t, List.intercalate (cs "\n") body⟩)

example :
    (toJSONSections [(keyControl "2. Workflow Gravity Analysis", [cs "w"]),
      (keyCompany "3. Product Overview", [cs "p"])]).map CleanSection.title =
      ["3. Product Overview", "2. Workflow Gravity Analysis"] := by decide

example :
    compileMarkdownLines [(keyCompany "3. Product Overview", [cs "p"])] =
      [cs "# Company Overview", [], cs "## 3. Product Overview", cs "p",
       sepLine, cs "# Part 2: Control Points Analysis", []] := by decide

/-! ## Size-safe chunker (splitTextIntoChunks, clean-company.js lines 702-770) -/

/-- Sentence terminators of `/[^.!?]+[.!?]+/`. -/
def isTerm (c : Char) : Bool := c = '.' || c = '!' || c = '?'

/-- `text.match(/[^.!?]+[.!?]+/g)`: the successive matches, scanning left to
right.  Unmatched characters — leading terminator runs and a trailing run
with no terminator — belong to no match.  `fuel` only makes the recursion
structural (every emitted match is non-empty). -/
def sentencesAuxFuel : Nat → List Char → List (List Char)
  | 0, _ => []
  | fuel + 1, s =>
    let s1 := s.dropWhile isTerm
    let a := s1.takeWhile fun c => !isTerm c
    let r := s1.dropWhile fun c => !isTerm c
    let b := r.takeWhile isTerm
    if b.isEmpty then [] else (a ++ b) :: sentencesAuxFuel fuel (r.dropWhile isTerm)

def sentencesAux (s : List Char) : List (List Char) := sentencesAuxFuel (s.length + 1) s

/-- `sentence.split(/,\s*/)`: split at every comma, also consuming the
whitespace that follows it.  `fuel` only makes the recursion structural. -/
def splitCommaWsFuel : Nat → List Char → List (List Char)
  | 0, s => [s]
  | _ + 1, [] => [[]]
  | fuel + 1, c :: rest =>
    if c = ',' then [] :: splitCommaWsFuel fuel (rest.dropWhile jsWs)
    else
      match splitCommaWsFuel fuel rest with
      | [] => [[c]]
      | p :: ps => (c :: p) :: ps

def splitCommaWs (s : List Char) : List (List Char) := splitCommaWsFuel (s.length + 1) s

/-- The word-level fallback loop (clean-company.js lines 740-752), a fold
over the words with state (chunks so far, current chunk). -/
def wordFold (maxLength : Nat) :
    List (List Char) × List Char → List (List Char) → List (List Char) × List Char
  | st, [] => st
  | (chunks, cc), w :: ws =>
    if (jsTrim (cc ++ ' ' :: w)).length ≤ maxLength then
      wordFold maxLength (chunks, cc ++ (if cc.isEmpty then w else ' ' :: w)) ws
    else
      wordFold maxLength ((if cc.isEmpty then chunks else chunks ++ [jsTrim cc]), w) ws

/-- The comma-level fallback loop (lines 725-757).  `lastPart` is
`parts[parts.length - 1]`; the source compares each part to it by VALUE
(`part === parts[parts.length - 1]`), so any interior part equal to the last
one also gets no `", "` appended. -/
def commaFold (maxLength : Nat) (lastPart : List Char) :
    List (List Char) × List Char → List (List Char) → List (List Char) × List Char
  | st, [] => st
  | (chunks, cc), p :: ps =>
    let pwc := p ++ (if p = lastPart then [] else cs ", ")
    if (cc ++ pwc).length ≤ maxLength then
      commaFold maxLength lastPart (chunks, cc ++ pwc) ps
    else
      let chunks1 := if cc.isEmpty then chunks else chunks ++ [jsTrim cc]
      if maxLength < pwc.length then
        commaFold maxLength lastPart (wordFold maxLength (chunks1, []) (pwc.splitOn ' ')) ps
      else
        commaFold maxLength lastPart (chunks1, pwc) ps

/-- The sentence-level greedy accumulation loop (lines 713-762). -/
def sentenceFold (maxLength : Nat) :
    List (List Char) × List Char → List (List Char) → List (List Char) × List Char
  | st, [] => st
  | (chunks, cc), sen :: ss =>
    if (cc ++ sen).length ≤ maxLength then
      sentenceFold maxLength (chunks, cc ++ sen) ss
    else
      let chunks1 := if cc.isEmpty then chunks else chunks ++ [jsTrim cc]
      if maxLength < sen.length then
        let parts := splitCommaWs sen
        sentenceFold maxLength (commaFold maxLength (parts.getLast?.getD []) (chunks1, []) parts) ss
      else
        sentenceFold maxLength (chunks1, sen) ss

/-- `splitTextIntoChunks` (clean-company.js lines 702-770).  The source's
early return `if (!text || text.length <= maxLength) return [text || '']`
collapses to the length test over `List Char`: an empty (or null) text has
length `0 ≤ maxLength` and `[text || '']` is `[text]` in every early case. -/
def splitTextIntoChunks (text : List Char) (maxLength : Nat) : List (List Char) :=
  if text.length ≤ maxLength then [text]
  else
    let m := sentencesAux text
    let sentences := if m.isEmpty then [text] else m
    let st := sentenceFold maxLength ([], []) sentences
    let chunks := if st.2.isEmpty then st.1 else st.1 ++ [jsTrim st.2]
    if chunks.isEmpty then [[]] else chunks

/-- Wrapper for the JavaScript call with `null`/`undefined` text: the
`!text` early return makes it behave exactly like the empty string. -/
def splitTextIntoChunksOpt (t : Option (List Char)) (maxLength : Nat) : List (List Char) :=
  splitTextIntoChunks (t.getD []) maxLength

example : splitTextIntoChunks (cs "Hi. world") 5 = [cs "Hi."] := by decide
example : splitTextIntoChunks (cs "Aa. Bb. Cc.") 8 = [cs "Aa. Bb.", cs "Cc."] := by decide
example : splitTextIntoChunks (cs "aaaaaaa") 5 = [cs "aaaaaaa"] := by decide

/-! ## Naive newline-preferring chunker (chunkText, part_003 lines 142-153) -/

/-- `text.lastIndexOf('\n', j)`: the largest index `≤ j` holding `c`, if
any (JavaScript clamps a too-large `fromIndex` to the last index, which the
out-of-range recursion below reproduces). -/
def lastIndexOfLe (s : List Char) (c : Char) : Nat → Option Nat
  | 0 =>
    match s[0]? with
    | some x => if x = c then some 0 else none
    | none => none
  | j + 1 =>
    match s[j + 1]? with
    | some x => if x = c then some (j + 1) else lastIndexOfLe s c j
    | none => lastIndexOfLe s c j

/-- The end index of the chunk starting at `i`: `end = min(i + size, len)`,
moved back to the last newline at or before it when that newline lies more
than 500 characters past `i`. -/
def chunkEnd (text : List Char) (size i : Nat) : Nat :=
  let end0 := min (i + size) text.length
  match lastIndexOfLe text '\n' end0 with
  | some nl => if i + 500 < nl then nl else end0
  | none => end0

/-- The `while (i < text.length)` loop of `chunkText`.  `fuel` only makes
the recursion structural: each iteration advances `i` (for `0 < size`), so
`text.length + 1` steps always suffice.  The source loop does not terminate
for `size = 0`; every call site uses the default `size = 1900`, and the
embedding returns `[]` in that unreachable case. -/
def chunkTextGo (text : List Char) (size : Nat) : Nat → Nat → List (List Char)
  | 0, _ => []
  | fuel + 1, i =>
    if i < text.length && 0 < size then
      ((text.drop i).take (chunkEnd text size i - i)) ::
        chunkTextGo text size fuel (chunkEnd text size i)
    else []

/-- `chunkText` (part_003 lines 142-153). -/
def chunkText (text : List Char) (size : Nat := 1900) : List (List Char) :=
  chunkTextGo text size (text.length + 1) 0

example : chunkText (cs "hello") 3 = [cs "hel", cs "lo"] := by decide
example : chunkText (cs "hello") = [cs "hello"] := by decide

/-! ## Output-block batching (clean-company.js lines 1464-1468, 1590-1609,
and 370-395) -/

/-- `chunkArray(arr, size)` / `addRemainingBlocks`'s slicing loop: both step
`i` by `size` and emit `arr.slice(i, i + size)`.  `fuel` only makes the
recursion structural; the loop does not terminate for `size = 0` (no call
site uses it), and every call site uses `size = 100`. -/
def chunkArrayFuel {α : Type} : Nat → List α → Nat → List (List α)
  | 0, _, _ => []
  | _ + 1, [], _ => []
  | fuel + 1, l, size => l.take size :: chunkArrayFuel fuel (l.drop size) size

def chunkArray {α : Type} (l : List α) (size : Nat := 100) : List (List α) :=
  chunkArrayFuel (l.length + 1) l size

/-- The sequence of block batches submitted by the handler (lines
1590-1609): the first 100 blocks go with the page-creation call (even when
there are none), and the remainder is appended in `chunkArray` batches of
100.  The `create → append*` pattern of lines 353-395 is identical. -/
def notionBatches {α : Type} (blocks : List α) : List (List α) :=
  let first100 := blocks.take 100
  let remainder := blocks.drop 100
  if remainder.isEmpty then [first100] else first100 :: chunkArray remainder 100

example : chunkArray [1, 2, 3, 4, 5] 2 = [[1, 2], [3, 4], [5]] := by decide
example : notionBatches ([] : List Nat) = [[]] := by decide

/-! # Claims -/

/-! ## C1 — chunk round-trip of `splitTextIntoChunks` -/

/-- C1 counterexample: chunking `"Hi. world"` with maximum length `5`
returns the single chunk `"Hi."`.  The non-whitespace character `w` occurs
in the input but in none of the chunks, so concatenating the chunks cannot
reproduce the input even after re-inserting whitespace at split points: the
trailing text after the last sentence terminator is dropped outright. -/
theorem C1_chunk_roundtrip_counterexample :
    splitTextIntoChunks (cs "Hi. world") 5 = [cs "Hi."] ∧
    'w' ∈ cs "Hi. world" ∧
    'w' ∉ (splitTextIntoChunks (cs "Hi. world") 5).flatten ∧
    jsWs 'w' = false := by decide

/-- C1 (amended): the round-trip invariant holds in the one regime the code
guarantees it — when the text already fits in one chunk (`|S| ≤ M`), the
chunker returns exactly `[S]`.  For `|S| > M` the invariant fails: text
after the last sentence terminator is dropped (see the counterexample). -/
theorem C1_chunk_roundtrip_short (s : List Char) (M : Nat) (h : s.length ≤ M) :
    splitTextIntoChunks s M = [s] := by
  simp [splitTextIntoChunks, h]

theorem C1_chunk_roundtrip_short_witness :
    (cs "abc").length ≤ 5 ∧ splitTextIntoChunks (cs "abc") 5 = [cs "abc"] :=
  ⟨by decide, C1_chunk_roundtrip_short (cs "abc") 5 (by decide)⟩

/-! ## C5 — idempotence of `stripCruft` -/

/-- C5 counterexample: `" == "` is not a banner (it starts with a space),
so the first pass only trims it, to `"=="`; the second pass recognizes the
uncovered banner and erases it.  Normalization is therefore not idempotent. -/
theorem C5_stripCruft_idempotent_counterexample :
    stripCruft (stripCruft (cs " == ")) ≠ stripCruft (cs " == ") := by decide

/-- C5 (amended): `stripCruft` is idempotent on every line whose normalized
form is left unchanged by each individual cleaning stage (no banner
uncovered by trimming, no residual `Step N` token, word-count annotation,
non-breaking space, surrounding whitespace, or section-number prefix).  In
general a second application can strip strictly more, as the counterexample
shows. -/
theorem C5_stripCruft_idempotent_of_stages_fixed (l : List Char)
    (h1 : bannerStage (stripCruft l) = stripCruft l)
    (h2 : removeSteps (stripCruft l) = stripCruft l)
    (h3 : removeWcGo (stripCruft l) = stripCruft l)
    (h4 : nbspStage (stripCruft l) = stripCruft l)
    (h5 : jsTrim (stripCruft l) = stripCruft l)
    (h6 : hashSectionStage (stripCruft l) = stripCruft l)
    (h7 : sectionStage (stripCruft l) = stripCruft l) :
    stripCruft (stripCruft l) = stripCruft l := by
  have e : stripCruft (stripCruft l) =
      sectionStage (hashSectionStage (jsTrim (nbspStage
        (removeWcGo (removeSteps (bannerStage (stripCruft l))))))) := rfl
  rw [e, h1, h2, h3, h4, h5, h6, h7]

theorem C5_stripCruft_idempotent_witness :
    bannerStage (stripCruft (cs "Hello world")) = stripCruft (cs "Hello world") ∧
    stripCruft (stripCruft (cs "Hello world")) = stripCruft (cs "Hello world") :=
  ⟨by decide,
   C5_stripCruft_idempotent_of_stages_fixed (cs "Hello world") (by decide)
     (by decide) (by decide) (by decide) (by decide) (by decide) (by decide)⟩

/-! ## C7 — empty input yields one empty chunk -/

/-- C7: for every maximum length, chunking the empty string returns exactly
the one-element sequence containing the empty string. -/
theorem C7_empty_chunking (M : Nat) : splitTextIntoChunks [] M = [[]] := by
  simp [splitTextIntoChunks]

/-! ## C10 — `splitTextIntoChunks` never returns the empty sequence -/

/-- The final guard `return chunks.length > 0 ? chunks : ['']` can never
produce the empty sequence. -/
theorem finalGuard_ne_nil (c : List (List Char)) :
    (if c.isEmpty = true then [[]] else c) ≠ [] := by
  split
  · simp
  · next h => simpa [List.isEmpty_iff] using h

/-- C10: for every input (including null/undefined, modeled as `none`, and
the empty string) and every maximum length, the chunker returns a non-empty
sequence of chunks. -/
theorem C10_chunker_nonempty :
    (∀ (text : List Char) (M : Nat), splitTextIntoChunks text M ≠ []) ∧
    (∀ (t : Option (List Char)) (M : Nat), splitTextIntoChunksOpt t M ≠ []) := by
  have h1 : ∀ (text : List Char) (M : Nat), splitTextIntoChunks text M ≠ [] := by
    intro text M
    unfold splitTextIntoChunks
    split
    · simp
    · exact finalGuard_ne_nil _
  exact ⟨h1, fun t M => h1 _ _⟩

/-! ## C6 — batch grouping -/

theorem chunkArrayFuel_flatten {α : Type} :
    ∀ (fuel : Nat) (l : List α) (size : Nat), 0 < size → l.length < fuel →
      (chunkArrayFuel fuel l size).flatten = l := by
  intro fuel
  induction fuel with
  | zero => intro l size _ hf; omega
  | succ n ih =>
    intro l size hs hf
    cases l with
    | nil => simp [chunkArrayFuel]
    | cons a t =>
      have hd : ((a :: t).drop size).length < n := by
        simp only [List.length_drop, List.length_cons]
        simp at hf
        omega
      simp only [chunkArrayFuel, List.flatten_cons, ih _ _ hs hd,
        List.take_append_drop]

theorem chunkArrayFuel_sizes {α : Type} :
    ∀ (fuel : Nat) (l : List α) (size : Nat),
      ∀ c ∈ chunkArrayFuel fuel l size, c.length ≤ size := by
  intro fuel
  induction fuel with
  | zero => intro l size c hc; simp [chunkArrayFuel] at hc
  | succ n ih =>
    intro l size c hc
    cases l with
    | nil => simp [chunkArrayFuel] at hc
    | cons a t =>
      simp only [chunkArrayFuel, List.mem_cons] at hc
      rcases hc with h | h
      · subst h
        simp only [List.length_take]
        exact Nat.min_le_left _ _
      · exact ih _ _ c h

theorem chunkArrayFuel_length {α : Type} :
    ∀ (fuel : Nat) (l : List α) (size : Nat), 0 < size → l.length < fuel →
      (chunkArrayFuel fuel l size).length = (l.length + size - 1) / size := by
  intro fuel
  induction fuel with
  | zero => intro l size _ hf; omega
  | succ n ih =>
    intro l size hs hf
    cases l with
    | nil =>
      simp [chunkArrayFuel, Nat.div_eq_of_lt (by omega : size - 1 < size)]
    | cons a t =>
      have hd : ((a :: t).drop size).length < n := by
        simp only [List.length_drop, List.length_cons]
        simp at hf
        omega
      simp only [chunkArrayFuel, List.length_cons, ih _ _ hs hd, List.length_drop]
      rcases Nat.le_total (t.length + 1) size with hle | hge
      · have e1 : t.length + 1 - size = 0 := by omega
        have e2 : t.length + 1 + size - 1 = t.length + size := by omega
        have e3 : (t.length + size) / size = 1 :=
          Nat.div_eq_of_lt_le (by omega) (by omega)
        rw [e1, e2, e3]
        simp [Nat.div_eq_of_lt (by omega : size - 1 < size)]
      · have e1 : t.length + 1 - size + size - 1 = t.length := by omega
        have e2 : t.length + 1 + size - 1 = t.length + size := by omega
        rw [e1, e2, Nat.add_div_right _ hs]

/-- C6 counterexample: with zero blocks the handler still issues the
page-creation call carrying an empty first batch, so one batch is
submitted while `ceil(0/100) = 0`. -/
theorem C6_batch_grouping_counterexample :
    notionBatches ([] : List Nat) = [([] : List Nat)] ∧
    (notionBatches ([] : List Nat)).length ≠ (([] : List Nat).length + 99) / 100 := by
  decide

/-- C6 (amended): for any block sequence of length `N` the serializer
submits exactly `max 1 ⌈N/100⌉` batches — `⌈N/100⌉` for `N ≥ 1`, plus the
always-present (possibly empty) page-creation batch when `N = 0` — each of
size at most 100, concatenating back to the original sequence in order. -/
theorem C6_batch_grouping {α : Type} (blocks : List α) :
    (notionBatches blocks).length = max 1 ((blocks.length + 99) / 100) ∧
    (∀ batch ∈ notionBatches blocks, batch.length ≤ 100) ∧
    (notionBatches blocks).flatten = blocks := by
  have hrem : (blocks.drop 100).length < (blocks.drop 100).length + 1 := Nat.lt_succ_self _
  by_cases h : (blocks.drop 100).isEmpty = true
  · have hle : blocks.length ≤ 100 := by
      rw [List.isEmpty_iff] at h
      have h2 := congrArg List.length h
      simp only [List.length_drop, List.length_nil] at h2
      omega
    have hdivle : (blocks.length + 99) / 100 < 2 := Nat.div_lt_of_lt_mul (by omega)
    have hmax : max 1 ((blocks.length + 99) / 100) = 1 := Nat.max_eq_left (by omega)
    unfold notionBatches
    rw [if_pos h]
    refine ⟨by simp [hmax], ?_, ?_⟩
    · intro batch hb
      simp only [List.mem_singleton] at hb
      subst hb
      simp only [List.length_take]
      omega
    · simp [List.take_of_length_le hle]
  · have hgt : 100 < blocks.length := by
      rcases Nat.lt_or_ge 100 blocks.length with hlt | hge
      · exact hlt
      · rw [List.isEmpty_iff] at h
        exact absurd (List.drop_eq_nil_of_le hge) h
    have hL := chunkArrayFuel_length ((blocks.drop 100).length + 1) (blocks.drop 100)
      100 (by omega) hrem
    have hS := chunkArrayFuel_sizes ((blocks.drop 100).length + 1) (blocks.drop 100) 100
    have hF := chunkArrayFuel_flatten ((blocks.drop 100).length + 1) (blocks.drop 100)
      100 (by omega) hrem
    unfold notionBatches chunkArray
    rw [if_neg h]
    refine ⟨?_, ?_, ?_⟩
    · simp only [List.length_drop] at hL
      simp only [List.length_cons, List.length_drop, hL]
      have e1 : blocks.length - 100 + 100 - 1 = blocks.length - 1 := by omega
      have e2 : blocks.length + 99 = blocks.length - 1 + 100 := by omega
      rw [e1, e2, Nat.add_div_right _ (by omega : (0 : Nat) < 100)]
      exact (Nat.max_eq_right (by omega)).symm
    · intro batch hb
      simp only [List.mem_cons] at hb
      rcases hb with hb | hb
      · subst hb
        simp only [List.length_take]
        omega
      · exact hS batch hb
    · simp only [List.flatten_cons, hF, List.take_append_drop]

/-! ## C8 — no dangling separator -/

/-- C8: whatever the buckets, the reassembled document never ends with the
separator line `---`: the final `while` loop pops every trailing separator
before the document is returned. -/
theorem C8_no_dangling_separator (b : Buckets) :
    (compileMarkdownLines b).getLast? ≠ some sepLine := by
  intro hcon
  unfold compileMarkdownLines at hcon
  rw [List.getLast?_reverse] at hcon
  have h2 := List.head?_dropWhile_not (fun x => x == sepLine) (mdLines b).reverse
  rw [hcon] at h2
  simp at h2

/-! ## C3 — reassembly in canonical order -/

theorem optMapTitleIf (scope t : String) (body : List (List Char)) :
    Option.map CleanSection.title
        (if body.isEmpty then none
         else some (⟨scope, t, List.intercalate (cs "\n") body⟩ : CleanSection)) =
      if body.isEmpty then none else some t := by
  by_cases h : body.isEmpty <;> simp [h]

theorem filterMapSkip (p : String → Bool) (l : List String) :
    (l.filterMap fun a => if p a then none else some a) = l.filter fun a => !p a := by
  induction l with
  | nil => rfl
  | cons a tl ih =>
    by_cases h : p a <;> simp [List.filterMap_cons, List.filter_cons, h, ih]

/-- C3: the reassembled section list depends only on the bucket contents
(not on the order the buckets were created in the map), and its titles are
exactly the locked table-of-contents order — primary scope then secondary
scope — filtered to the non-empty buckets; empty sections are omitted with
no placeholder. -/
theorem C3_reassembly_canonical_order (b1 b2 : Buckets)
    (h : ∀ k, getB b1 k = getB b2 k) :
    toJSONSections b1 = toJSONSections b2 ∧
    (toJSONSections b1).map CleanSection.title =
      (TOC.filter fun t => !(getB b1 (keyCompany t)).isEmpty) ++
      (CONTROL_TOC.filter fun t => !(getB b1 (keyControl t)).isEmpty) := by
  constructor
  · unfold toJSONSections
    congr 1
    · exact List.filterMap_congr fun t _ => by rw [h (keyCompany t)]
    · exact List.filterMap_congr fun t _ => by rw [h (keyControl t)]
  · simp only [toJSONSections, List.map_append, List.map_filterMap, optMapTitleIf,
      filterMapSkip]

theorem C3_reassembly_canonical_order_witness :
    (∀ k, getB [(keyControl "2. Workflow Gravity Analysis", [cs "w"]),
        (keyCompany "3. Product Overview", [cs "p"])] k =
      getB [(keyControl "2. Workflow Gravity Analysis", [cs "w"]),
        (keyCompany "3. Product Overview", [cs "p"])] k) ∧
    (toJSONSections [(keyControl "2. Workflow Gravity Analysis", [cs "w"]),
        (keyCompany "3. Product Overview", [cs "p"])]).map CleanSection.title =
      ["3. Product Overview", "2. Workflow Gravity Analysis"] := by
  refine ⟨fun k => rfl, ?_⟩
  rw [(C3_reassembly_canonical_order _ _ (fun k => rfl)).2]
  decide

/-! ## C2 — classifier coverage -/

theorem pushB_totalSize (b : Buckets) (k : String) (txt : List Char) (h : txt ≠ []) :
    totalSize (pushB b k txt) = totalSize b + 1 := by
  induction b with
  | nil => simp [pushB, h, totalSize]
  | cons p rest ih =>
    rcases p with ⟨k', v⟩
    by_cases hk : k' = k
    · simp [pushB, h, hk, totalSize]
      omega
    · simp only [pushB, h, if_false, hk, ite_false, totalSize, List.map_cons,
        List.sum_cons] at ih ⊢
      omega

/-- Over any sequence of normalized non-empty lines, each classifier step
adds exactly the non-header lines (those matching no rule) to the buckets,
one bucket entry per line. -/
theorem classify_totalSize :
    ∀ (lines : List (List Char)) (st : Option String × Buckets),
      (∀ l ∈ lines, stripCruft l = l ∧ l ≠ []) →
      totalSize (lines.foldl classifyLine st).2 =
        totalSize st.2 + (lines.filter fun l => (hit l).isNone).length := by
  intro lines
  induction lines with
  | nil => intro st _; simp
  | cons a tl ih =>
    intro st hall
    have ha := hall a (by simp)
    have htl : ∀ l ∈ tl, stripCruft l = l ∧ l ≠ [] := fun l hl => hall l (by simp [hl])
    rw [List.foldl_cons, ih _ htl]
    have hstep : classifyLine st a =
        (match hit a with
         | some k => (some k, st.2)
         | none =>
           (some (st.1.getD (keyCompany "2. Business Summary")),
            pushB st.2 (st.1.getD (keyCompany "2. Business Summary")) a)) := by
      unfold classifyLine
      simp only [ha.1]
      rw [if_neg ha.2]
    cases hh : hit a with
    | some k =>
      rw [hstep, hh]
      simp [List.filter_cons, hh]
    | none =>
      rw [hstep, hh]
      simp only [List.filter_cons, hh, Option.isNone_none, if_true, List.length_cons]
      rw [pushB_totalSize _ _ _ ha.2]
      omega

/-- C2 counterexample: `"Data Gravity"` is a normalized, non-empty line,
but classifying it alone leaves every bucket empty — a line matching a
header rule is consumed by the cursor and assigned to NO bucket, so not
every input line ends up in a bucket. -/
theorem C2_classifier_coverage_counterexample :
    stripCruft (cs "Data Gravity") = cs "Data Gravity" ∧
    cs "Data Gravity" ≠ [] ∧
    identifySection [cs "Data Gravity"] = [] := by decide

/-- C2 (amended): for every sequence of normalized non-empty lines, every
line that matches NO header rule is appended to exactly one bucket (the
default Business Summary bucket before any header is seen), so the total
bucket content counts exactly the non-header lines; header-matching lines
are consumed by the section cursor and stored in no bucket. -/
theorem C2_classifier_coverage (lines : List (List Char))
    (h : ∀ l ∈ lines, stripCruft l = l ∧ l ≠ []) :
    totalSize (identifySection lines) =
      (lines.filter fun l => (hit l).isNone).length := by
  unfold identifySection
  rw [classify_totalSize lines (none, []) h]
  simp [totalSize]

theorem C2_classifier_coverage_witness :
    (∀ l ∈ [cs "Data Gravity", cs "hello there"], stripCruft l = l ∧ l ≠ []) ∧
    totalSize (identifySection [cs "Data Gravity", cs "hello there"]) =
      ([cs "Data Gravity", cs "hello there"].filter fun l => (hit l).isNone).length :=
  ⟨by decide, C2_classifier_coverage _ (by decide)⟩

/-! ## C4 — header consumption with first-match-wins -/

/-- `List.find?` returns the element at the least index satisfying the
predicate. -/
theorem find?_eq_get_of_first {α : Type} (L : List α) (p : α → Bool) :
    ∀ (i : Nat) (hi : i < L.length),
      (∀ j (hj : j < i), p (L.get ⟨j, Nat.lt_trans hj hi⟩) = false) →
      p (L.get ⟨i, hi⟩) = true →
      L.find? p = some (L.get ⟨i, hi⟩) := by
  induction L with
  | nil => intro i hi; simp at hi
  | cons a t ih =>
    intro i hi hprior hp
    cases i with
    | zero => simp [List.find?_cons, show p a = true from hp]
    | succ n =>
      have h0 : p a = false := hprior 0 (Nat.succ_pos n)
      rw [List.find?_cons_of_neg _ (by simp [h0])]
      exact ih n (by simpa using hi) (fun j hj => hprior (j + 1) (by omega)) hp

/-- C4: for a normalized non-empty line matching the rule at index `i` and
no earlier rule, the classifier step sets the cursor to that rule's section
key and leaves every bucket untouched — the header line is consumed, never
appended as content. -/
theorem C4_header_first_match_consumed (cur : Option String) (b : Buckets)
    (l : List Char) (i : Nat) (hi : i < RX.length)
    (hnorm : stripCruft l = l) (hne : l ≠ [])
    (hmatch : testFrom (RX.get ⟨i, hi⟩).1 l = true)
    (hprior : ∀ j (hj : j < i), testFrom (RX.get ⟨j, Nat.lt_trans hj hi⟩).1 l = false) :
    classifyLine (cur, b) l = (some (RX.get ⟨i, hi⟩).2, b) := by
  have hfind : RX.find? (fun r => testFrom r.1 l) = some (RX.get ⟨i, hi⟩) :=
    find?_eq_get_of_first RX _ i hi hprior hmatch
  unfold classifyLine
  simp only [hnorm]
  rw [if_neg hne]
  unfold hit
  rw [hfind]
  rfl

theorem C4_header_first_match_consumed_witness :
    stripCruft (cs "ICP and customer success stories") =
      cs "ICP and customer success stories" ∧
    testFrom (RX.get ⟨5, by decide⟩).1 (cs "ICP and customer success stories") = true ∧
    testFrom (RX.get ⟨7, by decide⟩).1 (cs "ICP and customer success stories") = true ∧
    classifyLine (none, []) (cs "ICP and customer success stories") =
      (some (keyCompany "6. ICP Analysis"), []) := by
  refine ⟨by decide, by decide, by decide, ?_⟩
  have h := C4_header_first_match_consumed none [] (cs "ICP and customer success stories")
    5 (by decide) (by decide) (by decide) (by decide) (by decide)
  exact h.trans (by decide)

/-! ## C9 — exact round-trip of the naive chunker `chunkText` -/

theorem lastIndexOfLe_bounds (s : List Char) (c : Char) :
    ∀ (j n : Nat), lastIndexOfLe s c j = some n → n ≤ j ∧ n < s.length := by
  intro j
  induction j with
  | zero =>
    intro n h
    cases hh : s[0]? with
    | none =>
      simp only [lastIndexOfLe, hh] at h
      exact absurd h (by simp)
    | some x =>
      have hlen : 0 < s.length := by
        rcases Nat.lt_or_ge 0 s.length with h1 | h1
        · exact h1
        · rw [List.getElem?_eq_none (by omega)] at hh; simp at hh
      simp only [lastIndexOfLe, hh] at h
      split at h
      · obtain rfl := Option.some.inj h
        omega
      · simp at h
  | succ m ih =>
    intro n h
    cases hh : s[m + 1]? with
    | none =>
      simp only [lastIndexOfLe, hh] at h
      have := ih n h
      omega
    | some x =>
      have hlen : m + 1 < s.length := by
        rcases Nat.lt_or_ge (m + 1) s.length with h1 | h1
        · exact h1
        · rw [List.getElem?_eq_none (by omega)] at hh; simp at hh
      simp only [lastIndexOfLe, hh] at h
      split at h
      · obtain rfl := Option.some.inj h
        omega
      · have := ih n h
        omega

theorem chunkEnd_le (text : List Char) (size i : Nat) :
    chunkEnd text size i ≤ text.length := by
  cases hnl : lastIndexOfLe text '\n' (min (i + size) text.length) with
  | none =>
    simp only [chunkEnd, hnl]
    exact min_le_right _ _
  | some nl =>
    have hb := (lastIndexOfLe_bounds text '\n' _ _ hnl).2
    simp only [chunkEnd, hnl]
    split
    · omega
    · exact min_le_right _ _

theorem chunkEnd_gt (text : List Char) (size i : Nat) (h1 : i < text.length)
    (h2 : 0 < size) : i < chunkEnd text size i := by
  have h0 : i < min (i + size) text.length := by omega
  cases hnl : lastIndexOfLe text '\n' (min (i + size) text.length) with
  | none =>
    simp only [chunkEnd, hnl]
    exact h0
  | some nl =>
    simp only [chunkEnd, hnl]
    split
    · omega
    · exact h0

theorem chunkEnd_sub_le (text : List Char) (size i : Nat) :
    chunkEnd text size i - i ≤ size := by
  have hmin : min (i + size) text.length ≤ i + size := min_le_left _ _
  cases hnl : lastIndexOfLe text '\n' (min (i + size) text.length) with
  | none =>
    simp only [chunkEnd, hnl]
    omega
  | some nl =>
    have hb := (lastIndexOfLe_bounds text '\n' _ _ hnl).1
    simp only [chunkEnd, hnl]
    split
    · omega
    · omega

theorem chunkTextGo_flatten (text : List Char) (size : Nat) (hs : 0 < size) :
    ∀ (fuel i : Nat), text.length - i < fuel →
      (chunkTextGo text size fuel i).flatten = text.drop i := by
  intro fuel
  induction fuel with
  | zero => intro i h; omega
  | succ n ih =>
    intro i h
    unfold chunkTextGo
    rcases Nat.lt_or_ge i text.length with hi | hi
    · rw [if_pos (by simp [hi, hs])]
      have hgt := chunkEnd_gt text size i hi hs
      have hle := chunkEnd_le text size i
      simp only [List.flatten_cons]
      rw [ih (chunkEnd text size i) (by omega)]
      obtain ⟨d, hd⟩ : ∃ d, chunkEnd text size i = i + d :=
        ⟨chunkEnd text size i - i, by omega⟩
      rw [hd]
      simp only [Nat.add_sub_cancel_left]
      exact List.drop_take_append_drop text i d
    · rw [if_neg (by simp; omega)]
      simp [List.drop_eq_nil_of_le hi]

theorem chunkTextGo_sizes (text : List Char) (size : Nat) :
    ∀ (fuel i : Nat), ∀ ch ∈ chunkTextGo text size fuel i, ch.length ≤ size := by
  intro fuel
  induction fuel with
  | zero => intro i ch hch; simp [chunkTextGo] at hch
  | succ n ih =>
    intro i ch hch
    unfold chunkTextGo at hch
    split at hch
    · simp only [List.mem_cons] at hch
      rcases hch with hch | hch
      · subst hch
        have h1 := chunkEnd_sub_le text size i
        calc ((text.drop i).take (chunkEnd text size i - i)).length
            ≤ chunkEnd text size i - i := by
              simp only [List.length_take]
              exact Nat.min_le_left _ _
          _ ≤ size := h1
      · exact ih _ ch hch
    · simp at hch

/-- C9: for every string and every chunk size at least 1, `chunkText`
returns chunks that concatenate back to the input exactly — character for
character, with no trimming — and every chunk has length at most `size`. -/
theorem C9_chunkText_roundtrip (s : List Char) (size : Nat) (hs : 0 < size) :
    (chunkText s size).flatten = s ∧ ∀ ch ∈ chunkText s size, ch.length ≤ size := by
  constructor
  · have h := chunkTextGo_flatten s size hs (s.length + 1) 0 (by omega)
    simpa using h
  · exact chunkTextGo_sizes s size (s.length + 1) 0

theorem C9_chunkText_roundtrip_witness :
    0 < 3 ∧ (chunkText (cs "hello") 3).flatten = cs "hello" ∧
      ∀ ch ∈ chunkText (cs "hello") 3, ch.length ≤ 3 :=
  ⟨by decide, (C9_chunkText_roundtrip (cs "hello") 3 (by decide)).1,
   (C9_chunkText_roundtrip (cs "hello") 3 (by decide)).2⟩

end AqlCleaner
